import Mathlib

/-
Verification development for the logOS command-language interpreter
(logOS_Interpreter.py).  The Python source is shallowly embedded:

* the Lark command grammar together with the TreeParser transformer is
  embedded as an executable line parser producing (name, args) pairs;
* the arithmetic grammar together with CalculationTreeParser is embedded
  as a recursive-descent evaluator over Decimal values: exact finite
  decimals (coefficient * 10 ^ -scale) together with the special values
  Infinity, -Infinity and NaN, mirroring Python Decimal under the
  calculator context.  That context traps only FloatOperation, so
  DivisionByZero, InvalidOperation and Overflow never raise: division by
  zero and the other untrapped conditions produce special values that
  flow to the display.  Marked model boundaries, none exercised by a
  claim: signed zeros are conflated with 0, quotients and non-integral
  powers without a short exact decimal expansion are an explicit inexact
  failure, and CPython float-repr scientific notation is not rendered;
* the Runtime generator, RuntimeState, the KEYWORDS table, Desktop,
  Terminal, Calculator and the fallback note programs are embedded with
  explicit state passing; Python exceptions become an Except error
  monad, and the generator's single try/except around the dispatch loop
  becomes the wrapping of handler errors into an annotated fatal step
  error.

Python dicts are embedded as association lists with first-match lookup
and replace-in-place-or-append insertion, which is exactly the
observable behaviour of an insertion-ordered dict.
-/

/-! ## Instructions and the command-language parse (grammar, TreeParser, parse_logos) -/

/-- An instruction is a (command_name, command_args) pair, both strings,
as produced by TreeParser. -/
abbrev Instruction := String × String

/-- Failures of the arithmetic evaluator: lark parse failures map to
parseError; inexact marks the one model boundary, a correctly-rounded
result whose exact decimal expansion exceeds the division search bound
(under the MAX_PREC context Decimal would round it only after ~10^18
digits; no claim exercises such an input).  The arithmetic conditions
DivisionByZero, InvalidOperation and Overflow are NOT errors: the
calculator context traps only FloatOperation, so they produce the special
values Infinity and NaN instead of raising. -/
inductive CalcErr where
  | parseError
  | inexact
deriving DecidableEq, Repr

/-- Errors of the embedded runtime.  Python exception classes are mapped to
constructors: lark parse failures to parseError, failed assert statements to
assertionFailed, dict KeyError on the current program to keyError, the
Desktop opener's ValueError to alreadyOpen, the note programs' RuntimeError
to notSupported, KeyError in LimitedCommandProgram.get_command to
unknownCommand, and failures inside the Calculator to calcError. -/

inductive RTErr where
  | parseError
  | assertionFailed
  | keyError (key : String)
  | alreadyOpen (progName : String)
  | notSupported (command progName : String)
  | unknownCommand (command : String)
  | calcError (e : CalcErr)
deriving DecidableEq, Repr

/-- Python regex \S inside one line: the ASCII whitespace characters other
than the line terminators (which cannot occur inside a split line). -/
def isPySpace (c : Char) : Bool :=
  c = ' ' || c = '\t' || c = '\x0b' || c = '\x0c'

/-- Every carriage return must be immediately followed by a line feed:
the grammar's NEWLINE terminal is (CR? LF)+ and command_args excludes CR,
so a stray CR cannot be tokenized. -/
def crOk : List Char → Bool
  | [] => true
  | c :: rest => (c != '\r' || rest.head? == some '\n') && crOk rest

/-- Split on line feeds; the segment before each LF may still carry the CR
of a CRLF terminator. -/
def splitNl : List Char → List (List Char)
  | [] => [[]]
  | c :: rest =>
    let ls := splitNl rest
    if c = '\n' then [] :: ls
    else
      match ls with
      | [] => [[c]]
      | l :: ls2 => (c :: l) :: ls2

/-- Drop the CR that belonged to a CRLF line terminator. -/
def stripTrailCr (l : List Char) : List Char :=
  if l.getLast? == some '\r' then l.dropLast else l

/-- Tokenize the newline structure of the input: the lines of the text,
or a parse error on a stray carriage return. -/
def splitLines (cs : List Char) : Except RTErr (List (List Char)) :=
  if crOk cs then .ok ((splitNl cs).map stripTrailCr) else .error .parseError

/-- One command line: command_name (/\S+/), then either end of line, or the
space token (/ /+, maximal) followed by the non-empty command_args token
(/[^\n\r]+/).  A line starting with whitespace, a non-space whitespace
character where the space token is required, or trailing spaces with no
args character, cannot be tokenized. -/
def parseCommandLine (line : List Char) : Except RTErr Instruction :=
  match line.takeWhile (fun c => !(isPySpace c)), line.dropWhile (fun c => !(isPySpace c)) with
  | [], _ => .error .parseError
  | n1 :: nt, [] => .ok ((n1 :: nt).asString, "")
  | n1 :: nt, c :: cs =>
    if c = ' ' then
      match (c :: cs).dropWhile (fun c2 => c2 = ' ') with
      | [] => .error .parseError
      | a :: as2 => .ok ((n1 :: nt).asString, (a :: as2).asString)
    else .error .parseError

/-- Parse the lines: blank lines contribute nothing (TreeParser.program
filters out the None produced for blank_line).  The recursion folds from
the tail; since a parse failure anywhere yields the same single
parse-error value that lark's all-or-nothing parse does, the fold order is
observationally irrelevant. -/
def parseLines : List (List Char) → Except RTErr (List Instruction)
  | [] => .ok []
  | l :: ls => do
    let rest ← parseLines ls
    if l.isEmpty then
      pure rest
    else do
      let i ← parseCommandLine l
      pure (i :: rest)

/-- parse_logos: empty text gives the empty program, otherwise the text is
parsed under the command grammar. -/
def parse_logos (text : String) : Except RTErr (List Instruction) :=
  if text = "" then .ok []
  else do
    let ls ← splitLines text.data
    parseLines ls

/-- Re-serialization of one instruction: name, plus a single space and the
args when the args are non-empty. -/
def serializeInstruction (i : Instruction) : String :=
  if i.2 = "" then i.1 else i.1 ++ " " ++ i.2

/-- Re-serialization of an instruction sequence, one instruction per line. -/
def serializeProgram : List Instruction → String
  | [] => ""
  | [i] => serializeInstruction i
  | i :: is => serializeInstruction i ++ "\n" ++ serializeProgram is

/-- The shape every parsed instruction has: a non-empty name of
non-whitespace characters, args free of line terminators, and args that do
not begin with a space (the space token is maximal). -/
def wfInstruction (i : Instruction) : Bool :=
  !i.1.data.isEmpty
  && i.1.data.all (fun c => !(isPySpace c) && c != '\n' && c != '\r')
  && i.2.data.all (fun c => c != '\n' && c != '\r')
  && i.2.data.head? != some ' '

/-! ## Arithmetic (calculation_grammar, CalculationTreeParser, Calculator._calculate)

Python Decimal under the calculator context (prec = MAX_PREC, maximal
exponents, FloatOperation trapped) performs exact decimal arithmetic on
every value the claims exercise.  A value is embedded as
coeff * 10 ^ (-(scale : Int)). -/

/-- An exact decimal value: coeff / 10 ^ scale. -/
structure Dec where
  coeff : Int
  scale : Nat
deriving DecidableEq, Repr

/-- The five operator keys of CalculationTreeParser.operations_funcs. -/
inductive CalcOp where
  | add
  | sub
  | mul
  | div
  | pow
deriving DecidableEq, Repr

/-- The tree shape produced by the grammar tiers: each tier node is a first
operand and a non-empty list of (operator, operand) pairs that operate
folds left-to-right.  A tier with no trailing operations returns its head
operand unchanged, exactly as operate returns its accumulator. -/
inductive CExpr where
  | num (d : Dec)
  | node (head : CExpr) (ops : List (CalcOp × CExpr))

/-- Exact decimal addition at the common scale. -/
def decAdd (x y : Dec) : Dec :=
  let m := max x.scale y.scale
  ⟨x.coeff * (10 : Int) ^ (m - x.scale) + y.coeff * (10 : Int) ^ (m - y.scale), m⟩

/-- Exact decimal subtraction at the common scale. -/
def decSub (x y : Dec) : Dec :=
  let m := max x.scale y.scale
  ⟨x.coeff * (10 : Int) ^ (m - x.scale) - y.coeff * (10 : Int) ^ (m - y.scale), m⟩

/-- Exact decimal multiplication. -/
def decMul (x y : Dec) : Dec :=
  ⟨x.coeff * y.coeff, x.scale + y.scale⟩

/-- Search for the least extra scale k that makes the quotient an exact
decimal. -/
def divSearch (n d : Int) : Nat → Nat → Option Dec
  | _, 0 => none
  | k, bound + 1 =>
    if n * (10 : Int) ^ k % d = 0 then some ⟨n * (10 : Int) ^ k / d, k⟩
    else divSearch n d (k + 1) bound

/-- Exact finite decimal division over a divisor that is not zero.  A
quotient without a short finite decimal expansion is modelled as an
inexact failure: under the MAX_PREC context Decimal would round it only
after ~10^18 digits, which no claim exercises. -/
def decDiv (x y : Dec) : Except CalcErr Dec :=
  match divSearch (x.coeff * (10 : Int) ^ y.scale) (y.coeff * (10 : Int) ^ x.scale) 0 65 with
  | some d => .ok d
  | none => .error .inexact

/-- Natural-number power by repeated exact multiplication. -/
def decNatPow (x : Dec) : Nat → Dec
  | 0 => ⟨1, 0⟩
  | n + 1 => decMul x (decNatPow x n)

/-- A Decimal value as the evaluator sees it.  The calculator context
traps only FloatOperation, so the conditions DivisionByZero, InvalidOperation
and Overflow do NOT raise: they silently produce the special values
Infinity, -Infinity and quiet NaN, which flow through the remaining
arithmetic.  Signed zeros (Decimal distinguishes 0 and -0) are conflated
with 0 here; no claim input produces a negative zero. -/
inductive DecV where
  | fin (d : Dec)
  | inf (neg : Bool)
  | nan
deriving DecidableEq, Repr

/-- Addition with the special-value rules of the decimal arithmetic
specification: NaN propagates, and opposite infinities give the untrapped
InvalidOperation result NaN. -/
def addOp : DecV → DecV → DecV
  | .nan, _ => .nan
  | _, .nan => .nan
  | .inf s1, .inf s2 => if s1 = s2 then .inf s1 else .nan
  | .inf s, .fin _ => .inf s
  | .fin _, .inf s => .inf s
  | .fin x, .fin y => .fin (decAdd x y)

/-- Subtraction with the special-value rules: like-signed infinities give
NaN. -/
def subOp : DecV → DecV → DecV
  | .nan, _ => .nan
  | _, .nan => .nan
  | .inf s1, .inf s2 => if s1 = s2 then .nan else .inf s1
  | .inf s, .fin _ => .inf s
  | .fin _, .inf s => .inf (!s)
  | .fin x, .fin y => .fin (decSub x y)

/-- Multiplication with the special-value rules: infinity times zero is
the untrapped InvalidOperation result NaN, otherwise signs combine. -/
def mulOp : DecV → DecV → DecV
  | .nan, _ => .nan
  | _, .nan => .nan
  | .inf s1, .inf s2 => .inf (xor s1 s2)
  | .inf s, .fin y => if y.coeff = 0 then .nan else .inf (xor s (decide (y.coeff < 0)))
  | .fin x, .inf s => if x.coeff = 0 then .nan else .inf (xor (decide (x.coeff < 0)) s)
  | .fin x, .fin y => .fin (decMul x y)

/-- Division.  DivisionByZero and InvalidOperation are untrapped, so a
zero divisor yields a signed Infinity (NaN for 0/0) rather than an
exception; a finite value divided by an infinity is zero. -/
def divOp : DecV → DecV → Except CalcErr DecV
  | .nan, _ => .ok .nan
  | _, .nan => .ok .nan
  | .inf _, .inf _ => .ok .nan
  | .inf s, .fin y => .ok (.inf (xor s (decide (y.coeff < 0))))
  | .fin _, .inf _ => .ok (.fin ⟨0, 0⟩)
  | .fin x, .fin y =>
    if y.coeff = 0 then
      if x.coeff = 0 then .ok .nan
      else .ok (.inf (decide (x.coeff < 0)))
    else (decDiv x y).map .fin

/-- The exponent as an integer, when it is integral. -/
def decAsInt (y : Dec) : Option Int :=
  if y.coeff % (10 : Int) ^ y.scale = 0 then some (y.coeff / (10 : Int) ^ y.scale)
  else none

/-- Power, following Decimal.__pow__ under the untrapped context:
any-NaN gives NaN; x ** 0 is 1 except 0 ** 0 which is the untrapped
InvalidOperation result NaN; a negative base with a non-integral
(including infinite) exponent is the untrapped InvalidOperation result
NaN; 0 to a negative power is the untrapped DivisionByZero result
Infinity; infinite operands follow the magnitude rules.  The one model
boundary is a positive finite base with a non-integral finite exponent,
whose correctly-rounded irrational result at MAX_PREC is not modelled
(the spec declares non-integral exponents implementation-defined); no
claim exercises it. -/
def powOp : DecV → DecV → Except CalcErr DecV
  | .nan, _ => .ok .nan
  | _, .nan => .ok .nan
  | x, .fin y =>
    if y.coeff = 0 then
      match x with
      | .fin d => if d.coeff = 0 then .ok .nan else .ok (.fin ⟨1, 0⟩)
      | _ => .ok (.fin ⟨1, 0⟩)
    else
      match x with
      | .nan => .ok .nan
      | .inf s =>
        match decAsInt y with
        | some n =>
          if 0 < n then .ok (.inf (s && decide (n % 2 ≠ 0)))
          else .ok (.fin ⟨0, 0⟩)
        | none =>
          if s then .ok .nan
          else if 0 < y.coeff then .ok (.inf false) else .ok (.fin ⟨0, 0⟩)
      | .fin d =>
        if d.coeff = 0 then
          if 0 < y.coeff then .ok (.fin ⟨0, 0⟩) else .ok (.inf false)
        else
          match decAsInt y with
          | some n =>
            if 0 < n then .ok (.fin (decNatPow d n.toNat))
            else (decDiv ⟨1, 0⟩ (decNatPow d (-n).toNat)).map .fin
          | none =>
            if d.coeff < 0 then .ok .nan
            else .error .inexact
  | .fin x, .inf s2 =>
    if x.coeff < 0 then .ok .nan
    else if x.coeff = 0 then
      if s2 then .ok (.inf false) else .ok (.fin ⟨0, 0⟩)
    else
      match compare x.coeff.natAbs ((10 : Nat) ^ x.scale) with
      | .lt => if s2 then .ok (.inf false) else .ok (.fin ⟨0, 0⟩)
      | .eq => .ok (.fin ⟨1, 0⟩)
      | .gt => if s2 then .ok (.fin ⟨0, 0⟩) else .ok (.inf false)
  | .inf s1, .inf s2 =>
    if s1 then .ok .nan
    else if s2 then .ok (.fin ⟨0, 0⟩) else .ok (.inf false)

/-- The operator functions, keyed as in operations_funcs. -/
def opFunc : CalcOp → DecV → DecV → Except CalcErr DecV
  | .add, x, y => .ok (addOp x y)
  | .sub, x, y => .ok (subOp x y)
  | .mul, x, y => .ok (mulOp x y)
  | .div, x, y => divOp x y
  | .pow, x, y => powOp x y

mutual

/-- Evaluation of a tier node: CalculationTreeParser.operate. -/
def evalC : CExpr → Except CalcErr DecV
  | .num d => .ok (.fin d)
  | .node h ops => do
    let v ← evalC h
    evalOps v ops

/-- The left-to-right fold of operate over the trailing
(operator, operand) pairs. -/
def evalOps : DecV → List (CalcOp × CExpr) → Except CalcErr DecV
  | acc, [] => .ok acc
  | acc, (op, e) :: rest => do
    let v ← evalC e
    let acc2 ← opFunc op acc v
    evalOps acc2 rest

end

/-- Whitespace that the arithmetic grammar ignores (%ignore WS). -/
def isWsChar (c : Char) : Bool :=
  c = ' ' || c = '\t' || c = '\n' || c = '\r' || c = '\x0b' || c = '\x0c'

def skipWs (cs : List Char) : List Char :=
  cs.dropWhile isWsChar

def digitsToNat (ds : List Char) : Nat :=
  ds.foldl (fun n c => n * 10 + (c.toNat - '0'.toNat)) 0

/-- SIGNED_NUMBER of the lark common terminals: optional sign, then
INT ["." INT?] | "." INT, then an optional exponent part; the exponent is
taken only when complete (maximal munch leaves a dangling e untouched).
The value is returned as an exact decimal. -/
def parseNumeral (cs : List Char) : Except CalcErr (Dec × List Char) :=
  let (sign, cs1) :=
    match cs with
    | '+' :: r => ((1 : Int), r)
    | '-' :: r => ((-1 : Int), r)
    | _ => ((1 : Int), cs)
  let intDs := cs1.takeWhile Char.isDigit
  let r1 := cs1.dropWhile Char.isDigit
  let (fracDs, r2) :=
    match r1 with
    | '.' :: r => (r.takeWhile Char.isDigit, r.dropWhile Char.isDigit)
    | _ => (([] : List Char), r1)
  let hasDot := r1.head? == some '.'
  if intDs.isEmpty && (!hasDot || fracDs.isEmpty) then .error .parseError
  else
    let (expVal, r3) :=
      match r2 with
      | 'e' :: '+' :: r =>
        let ds := r.takeWhile Char.isDigit
        if ds.isEmpty then ((0 : Int), r2) else ((digitsToNat ds : Int), r.dropWhile Char.isDigit)
      | 'e' :: '-' :: r =>
        let ds := r.takeWhile Char.isDigit
        if ds.isEmpty then ((0 : Int), r2) else (-(digitsToNat ds : Int), r.dropWhile Char.isDigit)
      | 'e' :: r =>
        let ds := r.takeWhile Char.isDigit
        if ds.isEmpty then ((0 : Int), r2) else ((digitsToNat ds : Int), r.dropWhile Char.isDigit)
      | 'E' :: '+' :: r =>
        let ds := r.takeWhile Char.isDigit
        if ds.isEmpty then ((0 : Int), r2) else ((digitsToNat ds : Int), r.dropWhile Char.isDigit)
      | 'E' :: '-' :: r =>
        let ds := r.takeWhile Char.isDigit
        if ds.isEmpty then ((0 : Int), r2) else (-(digitsToNat ds : Int), r.dropWhile Char.isDigit)
      | 'E' :: r =>
        let ds := r.takeWhile Char.isDigit
        if ds.isEmpty then ((0 : Int), r2) else ((digitsToNat ds : Int), r.dropWhile Char.isDigit)
      | _ => ((0 : Int), r2)
    let mantissa : Int := sign * (digitsToNat (intDs ++ fracDs) : Int)
    let scaleInt : Int := (fracDs.length : Int) - expVal
    let d : Dec :=
      if 0 ≤ scaleInt then ⟨mantissa, scaleInt.toNat⟩
      else ⟨mantissa * (10 : Int) ^ (-scaleInt).toNat, 0⟩
    .ok (d, r3)

mutual

/-- primary_expression: secondary_expression (addition | subtraction)* -/
def parsePrimary : Nat → List Char → Except CalcErr (CExpr × List Char)
  | 0, _ => .error .parseError
  | fuel + 1, cs => do
    let (h, r) ← parseSecondary fuel cs
    let (ops, r2) ← parseAddSub fuel r
    pure (match ops with | [] => h | _ => .node h ops, r2)

def parseAddSub : Nat → List Char → Except CalcErr (List (CalcOp × CExpr) × List Char)
  | 0, _ => .error .parseError
  | fuel + 1, cs =>
    match skipWs cs with
    | '+' :: r => do
      let (e, r1) ← parseSecondary fuel r
      let (ops, r2) ← parseAddSub fuel r1
      pure ((.add, e) :: ops, r2)
    | '-' :: r => do
      let (e, r1) ← parseSecondary fuel r
      let (ops, r2) ← parseAddSub fuel r1
      pure ((.sub, e) :: ops, r2)
    | _ => .ok ([], cs)

/-- secondary_expression: tertiary_expression (multiplication | division)* -/
def parseSecondary : Nat → List Char → Except CalcErr (CExpr × List Char)
  | 0, _ => .error .parseError
  | fuel + 1, cs => do
    let (h, r) ← parseTertiary fuel cs
    let (ops, r2) ← parseMulDiv fuel r
    pure (match ops with | [] => h | _ => .node h ops, r2)

def parseMulDiv : Nat → List Char → Except CalcErr (List (CalcOp × CExpr) × List Char)
  | 0, _ => .error .parseError
  | fuel + 1, cs =>
    match skipWs cs with
    | '*' :: r => do
      let (e, r1) ← parseTertiary fuel r
      let (ops, r2) ← parseMulDiv fuel r1
      pure ((.mul, e) :: ops, r2)
    | '/' :: r => do
      let (e, r1) ← parseTertiary fuel r
      let (ops, r2) ← parseMulDiv fuel r1
      pure ((.div, e) :: ops, r2)
    | _ => .ok ([], cs)

/-- tertiary_expression: quaternary_expression exponentiation* -/
def parseTertiary : Nat → List Char → Except CalcErr (CExpr × List Char)
  | 0, _ => .error .parseError
  | fuel + 1, cs => do
    let (h, r) ← parseQuaternary fuel cs
    let (ops, r2) ← parsePowOps fuel r
    pure (match ops with | [] => h | _ => .node h ops, r2)

def parsePowOps : Nat → List Char → Except CalcErr (List (CalcOp × CExpr) × List Char)
  | 0, _ => .error .parseError
  | fuel + 1, cs =>
    match skipWs cs with
    | '^' :: r => do
      let (e, r1) ← parseQuaternary fuel r
      let (ops, r2) ← parsePowOps fuel r1
      pure ((.pow, e) :: ops, r2)
    | _ => .ok ([], cs)

/-- quaternary_expression: number | bracketed_expression (and
bracketed_expression unpacks to the inner primary_expression). -/
def parseQuaternary : Nat → List Char → Except CalcErr (CExpr × List Char)
  | 0, _ => .error .parseError
  | fuel + 1, cs =>
    match skipWs cs with
    | '(' :: r => do
      let (e, r1) ← parsePrimary fuel r
      match skipWs r1 with
      | ')' :: r2 => pure (e, r2)
      | _ => .error .parseError
    | cs2 => do
      let (d, r1) ← parseNumeral cs2
      pure (.num d, r1)

end

/-- Parse a whole arithmetic expression; trailing input that the grammar
cannot consume is a parse error. -/
def parseCalculation (s : String) : Except CalcErr CExpr := do
  let (e, r) ← parsePrimary (8 * (s.data.length + 1)) s.data
  if (skipWs r).isEmpty then pure e else .error .parseError

/-- Remove factors of ten shared by coefficient and scale, so that the
digit string below matches the shortest-decimal float repr on the values
the claims exercise. -/
def normDecAux : Int → Nat → Dec
  | c, 0 => ⟨c, 0⟩
  | c, s + 1 => if c % 10 = 0 then normDecAux (c / 10) s else ⟨c, s + 1⟩

def normDec (d : Dec) : Dec :=
  normDecAux d.coeff d.scale

/-- Python str(float(x)) for the decimal values the claims exercise:
integral values render as n.0, short non-integral values render with their
digits.  (CPython switches to scientific notation for very large or very
small magnitudes; no claim evaluates such a value, and that branch is
rendered in the same fixed-point form here.) -/
def floatRepr (d0 : Dec) : String :=
  let d := normDec d0
  if d.scale = 0 then toString d.coeff ++ ".0"
  else
    let ds := (toString d.coeff.natAbs).data
    let ds := List.replicate (d.scale + 1 - ds.length) '0' ++ ds
    let intPart := ds.take (ds.length - d.scale)
    let fracPart := ds.drop (ds.length - d.scale)
    (if d.coeff < 0 then "-" else "") ++ intPart.asString ++ "." ++ fracPart.asString

/-- Python str.rstrip with a single-character strip set. -/
def rstripChar (s : String) (c : Char) : String :=
  ((s.data.reverse.dropWhile (fun c2 => c2 = c)).reverse).asString

/-- Python str(float(x)) on the special values: float carries Decimal
infinities and NaN through, and CPython prints them as inf, -inf and
nan. -/
def floatDisplay : DecV → String
  | .nan => "nan"
  | .inf true => "-inf"
  | .inf false => "inf"
  | .fin d => floatRepr d

/-- Calculator._calculate: parse and evaluate under the calculator
context, then convert to floating form, strip trailing zeros, then strip a
trailing decimal point. -/
def Calculator_calculate (s : String) : Except CalcErr String := do
  let e ← parseCalculation s
  let d ← evalC e
  pure (rstripChar (rstripChar (floatDisplay d) '0') '.')

/-! ## Programs, runtime state, keywords and the dispatcher

The embedding covers the pure programs the claims concern: Desktop,
Terminal, Calculator and the dynamically created note programs.  The
I/O-backed collaborator programs (Email, Editor, Files, Browser, Clock,
Characters, Mines, Assembler) perform console, file, network, clock or
randomness effects and are outside the shallow embedding; they are also
outside every claim. -/

/-- The program variants of the embedding.  A note program remembers the
name it was created under (create_note_program). -/
inductive ProgramKind where
  | desktop
  | terminal
  | calculator
  | note (progName : String)
deriving DecidableEq, Repr

/-- A program instance: its variant and its mutable text buffer
(BaseProgram.buffer). -/
structure Program where
  kind : ProgramKind
  buffer : String
deriving DecidableEq, Repr

/-- RuntimeState, with Python dicts embedded as insertion-ordered
association lists. -/
structure RuntimeState where
  open_programs : List (String × Program)
  current_program_name : String
  library : List (String × ProgramKind)
  clipboard : String
deriving DecidableEq, Repr

/-- First-match lookup, the observable behaviour of dict indexing on a
dict with unique keys. -/
def alistLookup {α : Type} : List (String × α) → String → Option α
  | [], _ => none
  | (k2, v) :: rest, k => if k2 = k then some v else alistLookup rest k

/-- Dict assignment: replace in place when the key is present, append
otherwise. -/
def alistInsert {α : Type} : List (String × α) → String → α → List (String × α)
  | [], k, v => [(k, v)]
  | (k2, v2) :: rest, k, v =>
    if k2 = k then (k, v) :: rest else (k2, v2) :: alistInsert rest k v

/-- state.current_program: open_programs[current_program_name], which may
raise KeyError. -/
def currentProgram (s : RuntimeState) : Option Program :=
  alistLookup s.open_programs s.current_program_name

/-- The current_buffer getter. -/
def current_buffer (s : RuntimeState) : Except RTErr String :=
  match currentProgram s with
  | some p => .ok p.buffer
  | none => .error (.keyError s.current_program_name)

/-- The current_buffer setter. -/
def set_current_buffer (s : RuntimeState) (b : String) : Except RTErr RuntimeState :=
  match currentProgram s with
  | some p =>
    .ok { s with
      open_programs := alistInsert s.open_programs s.current_program_name { p with buffer := b } }
  | none => .error (.keyError s.current_program_name)

/-- state.clear_buffer. -/
def clear_buffer (s : RuntimeState) : Except RTErr RuntimeState :=
  set_current_buffer s ""

/-- A handler may return a transform of the remaining instruction stream. -/
abbrev StreamTransform := List Instruction → List Instruction

abbrev HandlerResult := Except RTErr (Option StreamTransform × RuntimeState)

abbrev Handler := String → RuntimeState → HandlerResult

/-- The functional_command decorator: a pure buffer transform lifted to a
handler that reads and writes the current buffer and produces no stream
transform. -/
def functional_command (f : String → String → Except RTErr String) : Handler :=
  fun args s => do
    let old ← current_buffer s
    let nb ← f args old
    let s2 ← set_current_buffer s nb
    pure (none, s2)

/-- Keyword rem: makes no changes (the buffer is read and written back). -/
def kwRem : Handler :=
  functional_command (fun _ buffer => .ok buffer)

/-- Keyword cut: clipboard := buffer, then clear the buffer; args must be
empty or the word all. -/
def kwCut : Handler := fun args s =>
  if args = "" ∨ args = "all" then do
    let b ← current_buffer s
    let s2 ← clear_buffer { s with clipboard := b }
    pure (none, s2)
  else .error .assertionFailed

/-- Keyword copy: clipboard := buffer; args must be empty or the word all. -/
def kwCopy : Handler := fun args s =>
  if args = "" ∨ args = "all" then do
    let b ← current_buffer s
    pure (none, { s with clipboard := b })
  else .error .assertionFailed

/-- Keyword paste: buffer := clipboard; args must be empty. -/
def kwPaste : Handler := fun args s =>
  if args = "" then do
    let s2 ← set_current_buffer s s.clipboard
    pure (none, s2)
  else .error .assertionFailed

/-- Keyword minimise: switch to the Desktop (args are ignored by the
Python handler). -/
def kwMinimise : Handler := fun _ s =>
  .ok (none, { s with current_program_name := "Desktop" })

/-- Keyword switch: active program name := the args token, with no
existence check; the args must contain no space. -/
def kwSwitch : Handler := fun args s =>
  if args.data.contains ' ' then .error .assertionFailed
  else .ok (none, { s with current_program_name := args })

/-- Keyword name: buffer := current program name; args must be empty. -/
def kwName : Handler := fun args s =>
  if args = "" then do
    let s2 ← set_current_buffer s s.current_program_name
    pure (none, s2)
  else .error .assertionFailed

/-- Keyword execute: a single space is appended to non-empty args that do
not already end with one, the concatenation with the clipboard is parsed,
and only the first parsed instruction is prepended to the remaining
stream; the state is returned unchanged. -/
def kwExecute : Handler := fun args s => do
  let new_command_line ← parse_logos
    ((if args ≠ "" ∧ args.data.getLast? ≠ some ' ' then args ++ " " else args) ++ s.clipboard)
  pure (some (fun current_code => new_command_line.take 1 ++ current_code), s)

/-- The KEYWORDS table, resolved before any program lookup. -/
def keywordHandler (n : String) : Option Handler :=
  if n = "rem" then some kwRem
  else if n = "cut" then some kwCut
  else if n = "copy" then some kwCopy
  else if n = "paste" then some kwPaste
  else if n = "minimise" then some kwMinimise
  else if n = "switch" then some kwSwitch
  else if n = "name" then some kwName
  else if n = "execute" then some kwExecute
  else none

/-- The Desktop opener handler for a command name: open the program of
that name (already open fails; a library constructor is instantiated with
the args as initial buffer; otherwise an inert note program is created),
register it and switch to it, with no stream transform. -/
def program_opener (command_name : String) (args : String) (s : RuntimeState) : HandlerResult :=
  match alistLookup s.open_programs command_name with
  | some _ => .error (.alreadyOpen command_name)
  | none =>
    let new_program : Program :=
      match alistLookup s.library command_name with
      | some ctor => { kind := ctor, buffer := args }
      | none => { kind := .note command_name, buffer := args }
    .ok (none, { s with
      open_programs := alistInsert s.open_programs command_name new_program,
      current_program_name := command_name })

/-- Terminal._run: parse the current buffer, replace the whole remaining
stream with the parse, and clear the buffer; args must be empty. -/
def Terminal_run : Handler := fun args s =>
  if args = "" then do
    let buf ← current_buffer s
    let new_instructions ← parse_logos buf
    let s2 ← clear_buffer s
    pure (some (fun _ => new_instructions), s2)
  else .error .assertionFailed

/-- Calculator commands: the = command recalculates the buffer, and each
operator command appends the operator and the args before recalculating. -/
def Calculator_equals : Handler :=
  functional_command (fun args buffer =>
    if args = "" then (Calculator_calculate buffer).mapError .calcError
    else .error .assertionFailed)

def Calculator_opCommand (op : String) : Handler :=
  functional_command (fun args buffer =>
    (Calculator_calculate (buffer ++ op ++ args)).mapError .calcError)

/-- get_command of each embedded program variant.  The Desktop accepts any
name and returns an opener for it; Terminal and Calculator look the name
up in their fixed command tables (KeyError on a miss); a note program
fails for every name. -/
def get_command (p : Program) (command_name : String) : Except RTErr Handler :=
  match p.kind with
  | .desktop => .ok (program_opener command_name)
  | .terminal =>
    if command_name = "run" then .ok Terminal_run
    else .error (.unknownCommand command_name)
  | .calculator =>
    if command_name = "=" then .ok Calculator_equals
    else if command_name = "*" ∨ command_name = "/" ∨ command_name = "+"
        ∨ command_name = "-" ∨ command_name = "^" then
      .ok (Calculator_opCommand command_name)
    else .error (.unknownCommand command_name)
  | .note n => .error (.notSupported command_name n)

/-- One turn of the Runtime dispatcher body, before the generator's
try/except: resolve a handler (keyword first, then the active program) and
invoke it. -/
def dispatchRaw (command : Instruction) (s : RuntimeState) : HandlerResult :=
  match keywordHandler command.1 with
  | some h => h command.2 s
  | none =>
    match currentProgram s with
    | none => .error (.keyError s.current_program_name)
    | some p =>
      match get_command p command.1 with
      | .error e => .error e
      | .ok h => h command.2 s

/-- The dispatcher's failure modes as seen by the driver: a fatal error
annotated with the failing command name, its args and a snapshot of the
state (the generator's single try/except), or the unannotated failure of
popping an empty stream in Interpreter.run_once. -/
inductive StepError where
  | fatal (command_name command_args : String) (snapshot : RuntimeState) (cause : RTErr)
  | emptyStream
deriving DecidableEq, Repr

/-- Runtime.send: any exception raised while resolving or invoking the
handler is caught exactly once and re-raised annotated. -/
def runtimeSend (command : Instruction) (s : RuntimeState) :
    Except StepError (Option StreamTransform × RuntimeState) :=
  match dispatchRaw command s with
  | .ok r => .ok r
  | .error e => .error (.fatal command.1 command.2 s e)

/-- Interpreter.run_once driven from the stream: pop the head instruction,
send it to the runtime, and apply any returned transform to the remaining
stream as it stands after the pop. -/
def runOnce (stream : List Instruction) (s : RuntimeState) :
    Except StepError (List Instruction × RuntimeState) :=
  match stream with
  | [] => .error .emptyStream
  | command :: rest =>
    match runtimeSend command s with
    | .error e => .error e
    | .ok (none, s2) => .ok (rest, s2)
    | .ok (some t, s2) => .ok (t rest, s2)

/-- The standard library restricted to the embedded program variants
(Desktop is deliberately absent from the library, as in the source). -/
def STANDARD_LIBRARY_model : List (String × ProgramKind) :=
  [("Terminal", .terminal), ("Calculator", .calculator)]

/-- The state built by Runtime() with the default arguments: a fresh
Desktop with an empty buffer, open and current. -/
def initialState : RuntimeState :=
  { open_programs := [("Desktop", { kind := .desktop, buffer := "" })],
    current_program_name := "Desktop",
    library := STANDARD_LIBRARY_model,
    clipboard := "" }

/-- Successful dispatch steps never remove open-program entries. -/
def keysPreserved (s s2 : RuntimeState) : Prop :=
  ∀ k, (alistLookup s.open_programs k).isSome → (alistLookup s2.open_programs k).isSome

/-- The runtime states reachable from the default initial state by
successful dispatch steps. -/
inductive Reach : RuntimeState → Prop where
  | init : Reach initialState
  | step (c : Instruction) (t : Option StreamTransform) (s s2 : RuntimeState) :
      Reach s → dispatchRaw c s = .ok (t, s2) → Reach s2

/-! ## Claim theorems -/

theorem exceptBind_ok {ε α β : Type} (a : α) (f : α → Except ε β) :
    (Except.ok a >>= f : Except ε β) = f a := rfl

theorem exceptBind_error {ε α β : Type} (e : ε) (f : α → Except ε β) :
    (Except.error e >>= f : Except ε β) = .error e := rfl

theorem exceptPure {ε α : Type} (a : α) :
    (pure a : Except ε α) = .ok a := rfl

/-- C3: a StreamTransform returned by a handler is applied to the
remaining stream after the triggering instruction has been removed: with
remaining stream [A, B, C] and a handler for A returning the transform
old -> [X] + old, the stream after the step is [X, B, C], not
[X, A, B, C]. -/
theorem C3_transform_after_pop
    (s s2 : RuntimeState) (n a : String) (t : StreamTransform)
    (X B C : Instruction)
    (hd : dispatchRaw (n, a) s = .ok (some t, s2))
    (ht : ∀ old, t old = X :: old) :
    runOnce [(n, a), B, C] s = .ok ([X, B, C], s2) := by
  simp only [runOnce, runtimeSend, hd]
  rw [ht]

/-- Witness for C3: from the initial state with clipboard boot, the
execute keyword's transform prepends (boot, ) to the post-pop stream. -/
theorem C3_transform_after_pop_witness :
    runOnce [("execute", ""), ("b", ""), ("c", "")]
        { initialState with clipboard := "boot" } =
      .ok ([("boot", ""), ("b", ""), ("c", "")],
        { initialState with clipboard := "boot" }) :=
  C3_transform_after_pop
    { initialState with clipboard := "boot" }
    { initialState with clipboard := "boot" }
    "execute" ""
    (fun current_code => List.take 1 [("boot", "")] ++ current_code)
    ("boot", "") ("b", "") ("c", "")
    rfl (fun _ => rfl)

/-- C5: the step engine commits state and stream together from the one
handler result, and any error raised during handler resolution or
invocation surfaces as a single fatal error annotated with the failing
command name, its args and a snapshot of the pre-step state; no partial
commit occurs and execution does not continue past the error. -/
theorem C5_step_error_annotated_atomic
    (n a : String) (s : RuntimeState) (rest : List Instruction) :
    (∀ e, dispatchRaw (n, a) s = .error e →
      runOnce ((n, a) :: rest) s = .error (.fatal n a s e)) ∧
    (∀ t s2, dispatchRaw (n, a) s = .ok (t, s2) →
      runOnce ((n, a) :: rest) s =
        .ok ((match t with | none => rest | some f => f rest), s2)) := by
  constructor
  · intro e he
    simp only [runOnce, runtimeSend, he]
  · intro t s2 ht
    cases t <;> simp only [runOnce, runtimeSend, ht]

/-- Witness for C5: an unknown Terminal command fails as a fatal error
carrying the command, its args and the pre-step state. -/
theorem C5_step_error_annotated_atomic_witness :
    runOnce [("zzz", "x")]
        { open_programs := [("Desktop", ⟨.desktop, ""⟩), ("Terminal", ⟨.terminal, ""⟩)],
          current_program_name := "Terminal",
          library := STANDARD_LIBRARY_model, clipboard := "" } =
      .error (.fatal "zzz" "x"
        { open_programs := [("Desktop", ⟨.desktop, ""⟩), ("Terminal", ⟨.terminal, ""⟩)],
          current_program_name := "Terminal",
          library := STANDARD_LIBRARY_model, clipboard := "" }
        (.unknownCommand "zzz")) :=
  (C5_step_error_annotated_atomic "zzz" "x"
    { open_programs := [("Desktop", ⟨.desktop, ""⟩), ("Terminal", ⟨.terminal, ""⟩)],
      current_program_name := "Terminal",
      library := STANDARD_LIBRARY_model, clipboard := "" } []).1
    (.unknownCommand "zzz") rfl

/-- C6: the arithmetic evaluator implements three strictly
left-associative precedence tiers, so 2 + 3 * 4 displays as 14,
(2 + 3) * 4 as 20 and 2 ^ 10 as 1024; ^ too folds left-to-right
(2 ^ 3 ^ 2 is 64, not 512), as does subtraction (10 - 3 - 4 is 3). -/
theorem C6_arithmetic_precedence :
    Calculator_calculate "2 + 3 * 4" = .ok "14" ∧
    Calculator_calculate "(2 + 3) * 4" = .ok "20" ∧
    Calculator_calculate "2 ^ 10" = .ok "1024" ∧
    Calculator_calculate "2 ^ 3 ^ 2" = .ok "64" ∧
    Calculator_calculate "10 - 3 - 4" = .ok "3" :=
  ⟨rfl, rfl, rfl, rfl, rfl⟩

/-- C10: executing the execute keyword with empty args and an empty
clipboard succeeds and leaves the state and the post-pop remaining stream
unchanged: the empty concatenation parses to no instructions. -/
theorem C10_execute_empty_noop
    (s : RuntimeState) (rest : List Instruction)
    (h : s.clipboard = "") :
    runOnce (("execute", "") :: rest) s = .ok (rest, s) := by
  obtain ⟨op, cur, lib, clip⟩ := s
  have h2 : clip = "" := h
  subst h2
  rfl

/-- Witness for C10 at the initial state, whose clipboard is empty. -/
theorem C10_execute_empty_noop_witness :
    runOnce [("execute", ""), ("later", "step")] initialState =
      .ok ([("later", "step")], initialState) :=
  C10_execute_empty_noop initialState [("later", "step")] rfl

/-- C1, counterexample: run is not a global keyword (the KEYWORDS table
does not contain it), and executing the instruction (run, ) from the
default initial state does not replace the remaining stream with the parse
of the current buffer (which would give the empty stream); instead the
Desktop's program lookup opens a note program named run and switches to
it. -/
theorem C1_run_counterexample :
    keywordHandler "run" = none ∧
    runOnce [("run", ""), ("a", "")] initialState =
      .ok ([("a", "")],
        { open_programs := [("Desktop", ⟨.desktop, ""⟩), ("run", ⟨.note "run", ""⟩)],
          current_program_name := "run",
          library := STANDARD_LIBRARY_model, clipboard := "" }) ∧
    runOnce [("run", ""), ("a", "")] initialState ≠ .ok ([], initialState) := by
  refine ⟨rfl, rfl, ?_⟩
  intro h
  have h1 : runOnce [("run", ""), ("a", "")] initialState =
      .ok ([("a", "")],
        { open_programs := [("Desktop", ⟨.desktop, ""⟩), ("run", ⟨.note "run", ""⟩)],
          current_program_name := "run",
          library := STANDARD_LIBRARY_model, clipboard := "" }) := rfl
  have h2 := h1.symm.trans h
  simp at h2

/-- C1, amended: run is a command of the Terminal program, not a global
keyword.  When the current program is a Terminal, executing run (no args)
parses the Terminal's buffer as instruction text, replaces the entire
remaining stream with the parsed sequence, and clears the buffer. -/
theorem C1_run_terminal_command
    (s : RuntimeState) (rest : List Instruction) (buf : String)
    (l : List Instruction)
    (hcur : currentProgram s = some ⟨.terminal, buf⟩)
    (hparse : parse_logos buf = .ok l) :
    runOnce (("run", "") :: rest) s =
      .ok (l, { s with
        open_programs :=
          alistInsert s.open_programs s.current_program_name ⟨.terminal, ""⟩ }) := by
  have hkw : keywordHandler "run" = none := rfl
  have hgc : get_command ⟨ProgramKind.terminal, buf⟩ "run" = .ok Terminal_run := rfl
  simp [runOnce, runtimeSend, dispatchRaw, hkw, hcur, hgc, Terminal_run,
    current_buffer, clear_buffer, set_current_buffer, hparse,
    exceptBind_ok, exceptPure]

/-- Witness for C1 (amended form): a Terminal whose buffer holds two
instruction lines replaces the remaining stream with them. -/
theorem C1_run_terminal_command_witness :
    runOnce [("run", ""), ("x", "")]
        { open_programs := [("Desktop", ⟨.desktop, ""⟩), ("Terminal", ⟨.terminal, "rem hi\nname"⟩)],
          current_program_name := "Terminal",
          library := STANDARD_LIBRARY_model, clipboard := "" } =
      .ok ([("rem", "hi"), ("name", "")],
        { open_programs := [("Desktop", ⟨.desktop, ""⟩), ("Terminal", ⟨.terminal, ""⟩)],
          current_program_name := "Terminal",
          library := STANDARD_LIBRARY_model, clipboard := "" }) :=
  C1_run_terminal_command
    { open_programs := [("Desktop", ⟨.desktop, ""⟩), ("Terminal", ⟨.terminal, "rem hi\nname"⟩)],
      current_program_name := "Terminal",
      library := STANDARD_LIBRARY_model, clipboard := "" }
    [("x", "")] "rem hi\nname" [("rem", "hi"), ("name", "")] rfl rfl

/-- C2, counterexample: with args foo and clipboard bar the claim's text
(A + clipboard) parses to the single instruction (foobar, ), but the code
joins the parts with a space and prepends (foo, bar) instead. -/
theorem C2_execute_counterexample :
    runOnce [("execute", "foo")] { initialState with clipboard := "bar" } =
      .ok ([("foo", "bar")], { initialState with clipboard := "bar" }) ∧
    parse_logos ("foo" ++ "bar") = .ok [("foobar", "")] ∧
    ([("foo", "bar")] : List Instruction) ≠ [("foobar", "")] := by
  refine ⟨rfl, rfl, ?_⟩
  decide

/-- C2, amended: execute parses (A + sep + clipboard), where sep is a
single space when A is non-empty and does not already end with a space and
is empty otherwise, and prepends only the first parsed instruction to the
post-pop remaining stream; the runtime state is otherwise unchanged (in
particular, when the parse yields three instructions the second and third
are discarded). -/
theorem C2_execute_prepend_first
    (s : RuntimeState) (A : String) (rest : List Instruction)
    (l : List Instruction)
    (hparse : parse_logos
        ((if A ≠ "" ∧ A.data.getLast? ≠ some ' ' then A ++ " " else A)
          ++ s.clipboard) = .ok l) :
    runOnce (("execute", A) :: rest) s = .ok (l.take 1 ++ rest, s) := by
  have hkw : keywordHandler "execute" = some kwExecute := rfl
  simp [runOnce, runtimeSend, dispatchRaw, hkw, kwExecute, hparse,
    exceptBind_ok, exceptPure]

/-- Witness for C2 (amended form): a clipboard parsing to three
instructions contributes only the first of the three. -/
theorem C2_execute_prepend_first_witness :
    runOnce [("execute", "")] { initialState with clipboard := "a 1\nb 2\nc 3" } =
      .ok ([("a", "1")], { initialState with clipboard := "a 1\nb 2\nc 3" }) :=
  C2_execute_prepend_first
    { initialState with clipboard := "a 1\nb 2\nc 3" } "" []
    [("a", "1"), ("b", "2"), ("c", "3")] rfl

/-- C8: the Desktop opener for name X with args A fails with the
already-open error when X is open (leaving the state unchanged), otherwise
instantiates the library constructor for X (or, absent that, a fallback
note program named X whose every command lookup fails with the
not-supported error) with initial buffer A, registers it under X, switches
to X, and produces no stream transform. -/
theorem C8_opener_protocol (s : RuntimeState) (X A : String) :
    (∀ p, alistLookup s.open_programs X = some p →
        program_opener X A s = .error (.alreadyOpen X)) ∧
    (∀ k, alistLookup s.open_programs X = none →
        alistLookup s.library X = some k →
        program_opener X A s = .ok (none,
          { s with open_programs := alistInsert s.open_programs X ⟨k, A⟩,
                   current_program_name := X })) ∧
    (alistLookup s.open_programs X = none →
        alistLookup s.library X = none →
        program_opener X A s = .ok (none,
          { s with open_programs := alistInsert s.open_programs X ⟨.note X, A⟩,
                   current_program_name := X }) ∧
        ∀ c, get_command ⟨.note X, A⟩ c = .error (.notSupported c X)) := by
  refine ⟨?_, ?_, ?_⟩
  · intro p hp
    simp [program_opener, hp]
  · intro k hop hlib
    simp [program_opener, hop, hlib]
  · intro hop hlib
    refine ⟨by simp [program_opener, hop, hlib], fun c => rfl⟩

/-- Witness for C8: from the initial state, opening Desktop again fails as
already open, opening Terminal instantiates the library constructor with
the args as buffer, and opening the unregistered name Notes creates a note
program that rejects every command. -/
theorem C8_opener_protocol_witness :
    program_opener "Desktop" "x" initialState = .error (.alreadyOpen "Desktop") ∧
    program_opener "Terminal" "seed" initialState = .ok (none,
      { open_programs := [("Desktop", ⟨.desktop, ""⟩), ("Terminal", ⟨.terminal, "seed"⟩)],
        current_program_name := "Terminal",
        library := STANDARD_LIBRARY_model, clipboard := "" }) ∧
    program_opener "Notes" "hello" initialState = .ok (none,
      { open_programs := [("Desktop", ⟨.desktop, ""⟩), ("Notes", ⟨.note "Notes", "hello"⟩)],
        current_program_name := "Notes",
        library := STANDARD_LIBRARY_model, clipboard := "" }) ∧
    get_command ⟨.note "Notes", "hello"⟩ "write" = .error (.notSupported "write" "Notes") :=
  ⟨(C8_opener_protocol initialState "Desktop" "x").1 ⟨.desktop, ""⟩ rfl,
   (C8_opener_protocol initialState "Terminal" "seed").2.1 .terminal rfl rfl,
   ((C8_opener_protocol initialState "Notes" "hello").2.2 rfl rfl).1,
   ((C8_opener_protocol initialState "Notes" "hello").2.2 rfl rfl).2 "write"⟩

/-! ## Reachability invariants for C4 -/

theorem alistLookup_insert {α : Type} (l : List (String × α)) (k k2 : String) (v : α) :
    alistLookup (alistInsert l k v) k2 = if k = k2 then some v else alistLookup l k2 := by
  induction l with
  | nil =>
    by_cases h2 : k = k2 <;> simp [alistInsert, alistLookup, h2]
  | cons hd tl ih =>
    obtain ⟨k3, v3⟩ := hd
    by_cases h1 : k3 = k
    · subst h1
      by_cases h2 : k3 = k2 <;> simp [alistInsert, alistLookup, h2]
    · by_cases h2 : k3 = k2
      · subst h2
        have h3 : ¬ k = k3 := fun hq => h1 hq.symm
        simp [alistInsert, alistLookup, h1, h3]
      · simp [alistInsert, alistLookup, h1, h2, ih]

theorem alistLookup_insert_isSome {α : Type} (l : List (String × α)) (k k2 : String) (v : α)
    (h : (alistLookup l k2).isSome) : (alistLookup (alistInsert l k v) k2).isSome := by
  rw [alistLookup_insert]
  by_cases h2 : k = k2 <;> simp [h2, h]

theorem keysPreserved_of_insert (s s2 : RuntimeState) (k : String) (p : Program)
    (h : s2.open_programs = alistInsert s.open_programs k p) :
    keysPreserved s s2 := by
  intro k2 hk2
  rw [h]
  exact alistLookup_insert_isSome _ _ _ _ hk2

theorem set_current_buffer_ok (s : RuntimeState) (b : String) (s2 : RuntimeState)
    (h : set_current_buffer s b = .ok s2) :
    s2.current_program_name = s.current_program_name ∧
    ∃ p, currentProgram s = some p ∧
      s2.open_programs =
        alistInsert s.open_programs s.current_program_name { p with buffer := b } := by
  unfold set_current_buffer at h
  cases hc : currentProgram s with
  | none => rw [hc] at h; cases h
  | some p =>
    rw [hc] at h
    cases h
    exact ⟨rfl, p, rfl, rfl⟩

theorem functional_command_ok (f : String → String → Except RTErr String)
    (args : String) (s : RuntimeState) (t : Option StreamTransform) (s2 : RuntimeState)
    (h : functional_command f args s = .ok (t, s2)) :
    s2.current_program_name = s.current_program_name ∧
    ∃ p2, s2.open_programs = alistInsert s.open_programs s.current_program_name p2 := by
  unfold functional_command at h
  cases hc : current_buffer s with
  | error e => rw [hc, exceptBind_error] at h; cases h
  | ok old =>
    rw [hc, exceptBind_ok] at h
    cases hf : f args old with
    | error e => rw [hf, exceptBind_error] at h; cases h
    | ok nb =>
      rw [hf, exceptBind_ok] at h
      cases hs : set_current_buffer s nb with
      | error e => rw [hs, exceptBind_error] at h; cases h
      | ok s3 =>
        rw [hs, exceptBind_ok, exceptPure] at h
        cases h
        obtain ⟨hcur, p, _, hopen⟩ := set_current_buffer_ok _ _ _ hs
        exact ⟨hcur, _, hopen⟩

theorem kwCut_ok (args : String) (s : RuntimeState) (t : Option StreamTransform)
    (s2 : RuntimeState) (h : kwCut args s = .ok (t, s2)) :
    s2.current_program_name = s.current_program_name ∧
    ∃ p2, s2.open_programs = alistInsert s.open_programs s.current_program_name p2 := by
  unfold kwCut at h
  split at h
  · cases hc : current_buffer s with
    | error e => rw [hc, exceptBind_error] at h; cases h
    | ok b =>
      rw [hc, exceptBind_ok] at h
      cases hs : clear_buffer { s with clipboard := b } with
      | error e => rw [hs, exceptBind_error] at h; cases h
      | ok s3 =>
        rw [hs, exceptBind_ok, exceptPure] at h
        cases h
        obtain ⟨hcur, p, _, hopen⟩ := set_current_buffer_ok _ _ _ hs
        exact ⟨hcur, _, hopen⟩
  · cases h

theorem kwCopy_ok (args : String) (s : RuntimeState) (t : Option StreamTransform)
    (s2 : RuntimeState) (h : kwCopy args s = .ok (t, s2)) :
    s2.current_program_name = s.current_program_name ∧
    s2.open_programs = s.open_programs := by
  unfold kwCopy at h
  split at h
  · cases hc : current_buffer s with
    | error e => rw [hc, exceptBind_error] at h; cases h
    | ok b =>
      rw [hc, exceptBind_ok, exceptPure] at h
      cases h
      exact ⟨rfl, rfl⟩
  · cases h

theorem kwExecute_ok (args : String) (s : RuntimeState) (t : Option StreamTransform)
    (s2 : RuntimeState) (h : kwExecute args s = .ok (t, s2)) : s2 = s := by
  unfold kwExecute at h
  cases hp : parse_logos
      ((if args ≠ "" ∧ args.data.getLast? ≠ some ' ' then args ++ " " else args)
        ++ s.clipboard) with
  | error e => rw [hp, exceptBind_error] at h; cases h
  | ok l =>
    rw [hp, exceptBind_ok, exceptPure] at h
    cases h
    rfl

theorem Terminal_run_ok (args : String) (s : RuntimeState) (t : Option StreamTransform)
    (s2 : RuntimeState) (h : Terminal_run args s = .ok (t, s2)) :
    s2.current_program_name = s.current_program_name ∧
    ∃ p2, s2.open_programs = alistInsert s.open_programs s.current_program_name p2 := by
  unfold Terminal_run at h
  split at h
  · cases hc : current_buffer s with
    | error e => rw [hc, exceptBind_error] at h; cases h
    | ok buf =>
      rw [hc, exceptBind_ok] at h
      cases hp : parse_logos buf with
      | error e => rw [hp, exceptBind_error] at h; cases h
      | ok l =>
        rw [hp, exceptBind_ok] at h
        cases hs : clear_buffer s with
        | error e => rw [hs, exceptBind_error] at h; cases h
        | ok s3 =>
          rw [hs, exceptBind_ok, exceptPure] at h
          cases h
          obtain ⟨hcur, p, _, hopen⟩ := set_current_buffer_ok _ _ _ hs
          exact ⟨hcur, _, hopen⟩
  · cases h

theorem program_opener_ok (X A : String) (s : RuntimeState) (t : Option StreamTransform)
    (s2 : RuntimeState) (h : program_opener X A s = .ok (t, s2)) :
    s2.current_program_name = X ∧
    ∃ p2, s2.open_programs = alistInsert s.open_programs X p2 := by
  unfold program_opener at h
  cases ho : alistLookup s.open_programs X with
  | some p => rw [ho] at h; cases h
  | none =>
    rw [ho] at h
    cases h
    exact ⟨rfl, _, rfl⟩

/-- The state shape after any successful dispatch: open-program keys are
preserved, and the current program name is unchanged, or set to Desktop
(minimise), or set by switch, or freshly registered (the opener). -/
theorem dispatch_state_shape (c : Instruction) (s : RuntimeState)
    (t : Option StreamTransform) (s2 : RuntimeState)
    (h : dispatchRaw c s = .ok (t, s2)) :
    keysPreserved s s2 ∧
    (s2.current_program_name = s.current_program_name ∨
     s2.current_program_name = "Desktop" ∨
     c.1 = "switch" ∨
     (alistLookup s2.open_programs s2.current_program_name).isSome) := by
  unfold dispatchRaw at h
  by_cases h1 : c.1 = "rem"
  · rw [h1] at h
    replace h : functional_command (fun _ buffer => .ok buffer) c.2 s = .ok (t, s2) := h
    obtain ⟨hcur, p2, hopen⟩ := functional_command_ok _ c.2 s t s2 h
    exact ⟨keysPreserved_of_insert _ _ _ _ hopen, Or.inl hcur⟩
  by_cases h2 : c.1 = "cut"
  · rw [h2] at h
    replace h : kwCut c.2 s = .ok (t, s2) := h
    obtain ⟨hcur, p2, hopen⟩ := kwCut_ok c.2 s t s2 h
    exact ⟨keysPreserved_of_insert _ _ _ _ hopen, Or.inl hcur⟩
  by_cases h3 : c.1 = "copy"
  · rw [h3] at h
    replace h : kwCopy c.2 s = .ok (t, s2) := h
    obtain ⟨hcur, hopen⟩ := kwCopy_ok c.2 s t s2 h
    refine ⟨fun k hk => ?_, Or.inl hcur⟩
    rw [hopen]
    exact hk
  by_cases h4 : c.1 = "paste"
  · rw [h4] at h
    replace h : kwPaste c.2 s = .ok (t, s2) := h
    unfold kwPaste at h
    split at h
    · cases hs : set_current_buffer s s.clipboard with
      | error e => rw [hs, exceptBind_error] at h; cases h
      | ok s3 =>
        rw [hs, exceptBind_ok, exceptPure] at h
        cases h
        obtain ⟨hcur, p, _, hopen⟩ := set_current_buffer_ok _ _ _ hs
        exact ⟨keysPreserved_of_insert _ _ _ _ hopen, Or.inl hcur⟩
    · cases h
  by_cases h5 : c.1 = "minimise"
  · rw [h5] at h
    replace h : (Except.ok (none, { s with current_program_name := "Desktop" }) :
        HandlerResult) = .ok (t, s2) := h
    cases h
    exact ⟨fun k hk => hk, Or.inr (Or.inl rfl)⟩
  by_cases h6 : c.1 = "switch"
  · rw [h6] at h
    replace h : kwSwitch c.2 s = .ok (t, s2) := h
    unfold kwSwitch at h
    split at h
    · cases h
    · cases h
      exact ⟨fun k hk => hk, Or.inr (Or.inr (Or.inl h6))⟩
  by_cases h7 : c.1 = "name"
  · rw [h7] at h
    replace h : kwName c.2 s = .ok (t, s2) := h
    unfold kwName at h
    split at h
    · cases hs : set_current_buffer s s.current_program_name with
      | error e => rw [hs, exceptBind_error] at h; cases h
      | ok s3 =>
        rw [hs, exceptBind_ok, exceptPure] at h
        cases h
        obtain ⟨hcur, p, _, hopen⟩ := set_current_buffer_ok _ _ _ hs
        exact ⟨keysPreserved_of_insert _ _ _ _ hopen, Or.inl hcur⟩
    · cases h
  by_cases h8 : c.1 = "execute"
  · rw [h8] at h
    replace h : kwExecute c.2 s = .ok (t, s2) := h
    have hs2 := kwExecute_ok c.2 s t s2 h
    subst hs2
    exact ⟨fun k hk => hk, Or.inl rfl⟩
  -- not a keyword: dispatch through the current program
  have hkw : keywordHandler c.1 = none := by
    simp [keywordHandler, h1, h2, h3, h4, h5, h6, h7, h8]
  rw [hkw] at h
  replace h : (match currentProgram s with
    | none => (Except.error (RTErr.keyError s.current_program_name) : HandlerResult)
    | some p =>
      match get_command p c.1 with
      | .error e => .error e
      | .ok hh => hh c.2 s) = .ok (t, s2) := h
  cases hc : currentProgram s with
  | none => rw [hc] at h; cases h
  | some p =>
    rw [hc] at h
    obtain ⟨kind, buffer⟩ := p
    cases kind with
    | desktop =>
      replace h : program_opener c.1 c.2 s = .ok (t, s2) := h
      obtain ⟨hcur, p2, hopen⟩ := program_opener_ok c.1 c.2 s t s2 h
      refine ⟨keysPreserved_of_insert _ _ _ _ hopen, Or.inr (Or.inr (Or.inr ?_))⟩
      rw [hcur, hopen, alistLookup_insert]
      simp
    | terminal =>
      replace h : (match get_command ⟨ProgramKind.terminal, buffer⟩ c.1 with
        | .error e => (.error e : HandlerResult)
        | .ok hh => hh c.2 s) = .ok (t, s2) := h
      by_cases hr : c.1 = "run"
      · rw [hr] at h
        replace h : Terminal_run c.2 s = .ok (t, s2) := h
        obtain ⟨hcur, p2, hopen⟩ := Terminal_run_ok c.2 s t s2 h
        exact ⟨keysPreserved_of_insert _ _ _ _ hopen, Or.inl hcur⟩
      · rw [show get_command ⟨ProgramKind.terminal, buffer⟩ c.1 =
            .error (.unknownCommand c.1) from by simp [get_command, hr]] at h
        cases h
    | calculator =>
      replace h : (match get_command ⟨ProgramKind.calculator, buffer⟩ c.1 with
        | .error e => (.error e : HandlerResult)
        | .ok hh => hh c.2 s) = .ok (t, s2) := h
      by_cases hq1 : c.1 = "="
      · rw [hq1] at h
        replace h : Calculator_equals c.2 s = .ok (t, s2) := h
        obtain ⟨hcur, p2, hopen⟩ := functional_command_ok _ c.2 s t s2 h
        exact ⟨keysPreserved_of_insert _ _ _ _ hopen, Or.inl hcur⟩
      by_cases hq2 : c.1 = "*"
      · rw [hq2] at h
        replace h : Calculator_opCommand "*" c.2 s = .ok (t, s2) := h
        obtain ⟨hcur, p2, hopen⟩ := functional_command_ok _ c.2 s t s2 h
        exact ⟨keysPreserved_of_insert _ _ _ _ hopen, Or.inl hcur⟩
      by_cases hq3 : c.1 = "/"
      · rw [hq3] at h
        replace h : Calculator_opCommand "/" c.2 s = .ok (t, s2) := h
        obtain ⟨hcur, p2, hopen⟩ := functional_command_ok _ c.2 s t s2 h
        exact ⟨keysPreserved_of_insert _ _ _ _ hopen, Or.inl hcur⟩
      by_cases hq4 : c.1 = "+"
      · rw [hq4] at h
        replace h : Calculator_opCommand "+" c.2 s = .ok (t, s2) := h
        obtain ⟨hcur, p2, hopen⟩ := functional_command_ok _ c.2 s t s2 h
        exact ⟨keysPreserved_of_insert _ _ _ _ hopen, Or.inl hcur⟩
      by_cases hq5 : c.1 = "-"
      · rw [hq5] at h
        replace h : Calculator_opCommand "-" c.2 s = .ok (t, s2) := h
        obtain ⟨hcur, p2, hopen⟩ := functional_command_ok _ c.2 s t s2 h
        exact ⟨keysPreserved_of_insert _ _ _ _ hopen, Or.inl hcur⟩
      by_cases hq6 : c.1 = "^"
      · rw [hq6] at h
        replace h : Calculator_opCommand "^" c.2 s = .ok (t, s2) := h
        obtain ⟨hcur, p2, hopen⟩ := functional_command_ok _ c.2 s t s2 h
        exact ⟨keysPreserved_of_insert _ _ _ _ hopen, Or.inl hcur⟩
      rw [show get_command ⟨ProgramKind.calculator, buffer⟩ c.1 =
          .error (.unknownCommand c.1) from by
        simp [get_command, hq1, hq2, hq3, hq4, hq5, hq6]] at h
      cases h
    | note n =>
      replace h : (Except.error (RTErr.notSupported c.1 n) : HandlerResult) = .ok (t, s2) := h
      cases h

/-- The Desktop entry created at session start is never removed. -/
theorem reach_desktop_open (s : RuntimeState) (hr : Reach s) :
    (alistLookup s.open_programs "Desktop").isSome := by
  induction hr with
  | init => rfl
  | step c t s3 s4 hprev hd ih => exact (dispatch_state_shape c s3 t s4 hd).1 "Desktop" ih

/-- C4, counterexample: switch performs no existence check, so one step
from the initial state makes current_program_name the token foo, which is
not a key of open_programs. -/
theorem C4_invariant_counterexample :
    runOnce [("switch", "foo")] initialState =
      .ok ([], { initialState with current_program_name := "foo" }) ∧
    alistLookup
        ({ initialState with current_program_name := "foo" } : RuntimeState).open_programs
        ({ initialState with current_program_name := "foo" } : RuntimeState).current_program_name
      = none :=
  ⟨rfl, rfl⟩

/-- C4, amended: current_program_name resolves in open_programs in the
initial state, and every successful operation other than switch preserves
this invariant on every reachable state; switch is the sole exception, as
it assigns the name without an existence check (minimise is safe because
the Desktop entry is never removed from a reachable state). -/
theorem C4_invariant_amended :
    (alistLookup initialState.open_programs initialState.current_program_name).isSome ∧
    (∀ s c t s2, Reach s →
      (alistLookup s.open_programs s.current_program_name).isSome →
      dispatchRaw c s = .ok (t, s2) →
      c.1 ≠ "switch" →
      (alistLookup s2.open_programs s2.current_program_name).isSome) := by
  refine ⟨rfl, ?_⟩
  intro s c t s2 hr hinv hd hsw
  obtain ⟨hkeys, hcur⟩ := dispatch_state_shape c s t s2 hd
  rcases hcur with hcur | hcur | hcur | hcur
  · rw [hcur]
    exact hkeys _ hinv
  · rw [hcur]
    exact hkeys _ (reach_desktop_open s hr)
  · exact absurd hcur hsw
  · exact hcur

/-- Witness for C4 (amended form): one rem step from the initial state
preserves the invariant. -/
theorem C4_invariant_amended_witness :
    (alistLookup initialState.open_programs initialState.current_program_name).isSome :=
  C4_invariant_amended.2 initialState ("rem", "") none initialState Reach.init rfl rfl
    (by decide)

/-! ## Division by the literal zero under the untrapped context (C7) -/

/-- C7, counterexample: division by the literal 0 does not fail.  The
calculator context traps only FloatOperation, so the untrapped
DivisionByZero (and, for 0/0, InvalidOperation) conditions yield Infinity
and NaN, and _calculate returns the display strings inf, -inf and nan
instead of raising an EvaluationError. -/
theorem C7_division_by_zero_counterexample :
    Calculator_calculate "1 / 0" = .ok "inf" ∧
    Calculator_calculate "0 / 0" = .ok "nan" ∧
    Calculator_calculate "(0 - 1) / 0" = .ok "-inf" :=
  ⟨rfl, rfl, rfl⟩

/-- C7, amended: malformed numerals and unmatched parentheses fail with
an EvaluationError, but division by the literal 0 does not: the division
step on any finite dividend and a zero divisor succeeds with a signed
Infinity (NaN when the dividend is also zero), the evaluator carries the
special value through, and _calculate displays it as inf, -inf or nan. -/
theorem C7_division_by_zero_amended :
    (∀ (x d : Dec), d.coeff = 0 →
      opFunc .div (.fin x) (.fin d) =
        .ok (if x.coeff = 0 then DecV.nan else DecV.inf (decide (x.coeff < 0)))) ∧
    (∀ (x d : Dec), d.coeff = 0 →
      evalC (.node (.num x) [(CalcOp.div, .num d)]) =
        .ok (if x.coeff = 0 then DecV.nan else DecV.inf (decide (x.coeff < 0)))) ∧
    Calculator_calculate "8 / 0.0" = .ok "inf" ∧
    Calculator_calculate "(2 + 3" = .error .parseError ∧
    Calculator_calculate "2 + 3)" = .error .parseError ∧
    Calculator_calculate "1..2" = .error .parseError := by
  have hstep : ∀ (x d : Dec), d.coeff = 0 →
      opFunc .div (.fin x) (.fin d) =
        .ok (if x.coeff = 0 then DecV.nan else DecV.inf (decide (x.coeff < 0))) := by
    intro x d h
    show (if d.coeff = 0 then
        if x.coeff = 0 then (Except.ok DecV.nan : Except CalcErr DecV)
        else .ok (.inf (decide (x.coeff < 0)))
      else (decDiv x d).map .fin) =
      .ok (if x.coeff = 0 then DecV.nan else DecV.inf (decide (x.coeff < 0)))
    rw [if_pos h]
    by_cases hx : x.coeff = 0 <;> simp [hx]
  refine ⟨hstep, ?_, rfl, rfl, rfl, rfl⟩
  intro x d h
  simp only [evalC, evalOps, exceptBind_ok, hstep x d h]

/-- Witness for C7 (amended form): the division step 5 / 0.00 succeeds
with positive Infinity, and the evaluator carries -3 / 0 to negative
Infinity. -/
theorem C7_division_by_zero_amended_witness :
    opFunc .div (.fin ⟨5, 0⟩) (.fin ⟨0, 2⟩) = .ok (DecV.inf false) ∧
    evalC (.node (.num ⟨-3, 0⟩) [(CalcOp.div, .num ⟨0, 0⟩)]) = .ok (DecV.inf true) := by
  constructor
  · have h := C7_division_by_zero_amended.1 ⟨5, 0⟩ ⟨0, 2⟩ rfl
    simpa using h
  · have h := C7_division_by_zero_amended.2.1 ⟨-3, 0⟩ ⟨0, 0⟩ rfl
    simpa using h

/-! ## Parse and serialize round-trip (C9) -/

theorem asString_data (s : String) : s.data.asString = s := rfl

theorem splitNl_ne_nil : ∀ cs : List Char, splitNl cs ≠ []
  | [] => by simp [splitNl]
  | c :: rest => by
    simp only [splitNl]
    split
    · simp
    · split <;> simp

theorem splitNl_no_nl : ∀ (cs : List Char), ∀ l ∈ splitNl cs, '\n' ∉ l
  | [] => by simp [splitNl]
  | c :: rest => by
    have ih := splitNl_no_nl rest
    simp only [splitNl]
    by_cases hc : c = '\n'
    · rw [if_pos hc]
      intro l hl
      rcases List.mem_cons.mp hl with h1 | h1
      · subst h1
        simp
      · exact ih l h1
    · rw [if_neg hc]
      cases hrest : splitNl rest with
      | nil => exact absurd hrest (splitNl_ne_nil rest)
      | cons l0 ls2 =>
        intro l hl
        rcases List.mem_cons.mp hl with h1 | h1
        · subst h1
          intro hmem
          rcases List.mem_cons.mp hmem with h2 | h2
          · exact hc h2.symm
          · exact ih l0 (hrest ▸ List.mem_cons_self l0 ls2) h2
        · exact ih l (hrest ▸ List.mem_cons_of_mem l0 h1)

theorem stripTrailCr_cons (c x : Char) (l : List Char) :
    stripTrailCr (c :: x :: l) = c :: stripTrailCr (x :: l) := by
  unfold stripTrailCr
  rw [List.getLast?_cons_cons]
  cases h : ((x :: l).getLast? == some '\r')
  · simp [h]
  · simp [h, List.dropLast_cons₂]

theorem stripTrailCr_subset (l : List Char) : stripTrailCr l ⊆ l := by
  unfold stripTrailCr
  split
  · exact List.dropLast_subset l
  · exact fun a ha => ha

theorem stripTrailCr_eq_of_no_cr (l : List Char) (h : '\r' ∉ l) : stripTrailCr l = l := by
  unfold stripTrailCr
  split
  · next hbeq =>
    exact absurd (List.mem_of_mem_getLast? (beq_iff_eq.mp hbeq)) h
  · rfl

theorem crOk_of_no_cr : ∀ cs : List Char, '\r' ∉ cs → crOk cs = true
  | [], _ => rfl
  | c :: rest, h => by
    have h1 : c ≠ '\r' := fun hq => h (hq ▸ List.mem_cons_self c rest)
    have h2 := crOk_of_no_cr rest (fun hq => h (List.mem_cons_of_mem c hq))
    simp [crOk, h1, h2]

theorem splitNl_strip_no_cr : ∀ (cs : List Char), crOk cs = true →
    ∀ l ∈ splitNl cs, '\r' ∉ stripTrailCr l
  | [] => by simp [splitNl, stripTrailCr]
  | c :: rest => by
    intro hcr
    simp only [crOk, Bool.and_eq_true] at hcr
    obtain ⟨hcr1, hcr2⟩ := hcr
    have ih := splitNl_strip_no_cr rest hcr2
    simp only [splitNl]
    by_cases hc : c = '\n'
    · rw [if_pos hc]
      intro l hl
      rcases List.mem_cons.mp hl with h1 | h1
      · subst h1
        simp [stripTrailCr]
      · exact ih l h1
    · rw [if_neg hc]
      cases hrest : splitNl rest with
      | nil => exact absurd hrest (splitNl_ne_nil rest)
      | cons l0 ls2 =>
        intro l hl
        rcases List.mem_cons.mp hl with h1 | h1
        · subst h1
          by_cases hcRet : c = '\r'
          · -- a CR is always followed by LF, so the current segment is empty
            subst hcRet
            simp only [bne_self_eq_false, Bool.false_or] at hcr1
            cases hrest2 : rest with
            | nil =>
              rw [hrest2] at hcr1
              simp at hcr1
            | cons r0 rtail =>
              rw [hrest2] at hcr1
              simp only [List.head?_cons, beq_iff_eq, Option.some.injEq] at hcr1
              subst hcr1
              rw [hrest2] at hrest
              simp only [splitNl, if_pos rfl] at hrest
              injection hrest with h0 h0t
              rw [← h0]
              decide
          · have hl0 := ih l0 (hrest ▸ List.mem_cons_self l0 ls2)
            cases l0 with
            | nil =>
              rw [stripTrailCr_eq_of_no_cr [c]
                (fun hmem => hcRet (List.mem_singleton.mp hmem).symm)]
              intro hmem
              exact hcRet (List.mem_singleton.mp hmem).symm
            | cons x l2 =>
              rw [stripTrailCr_cons]
              intro hmem
              rcases List.mem_cons.mp hmem with h2 | h2
              · exact hcRet h2.symm
              · exact hl0 h2
        · exact ih l (hrest ▸ List.mem_cons_of_mem l0 h1)

theorem data_asString (l : List Char) : (List.asString l).data = l := rfl

theorem parseCommandLine_wf (line : List Char) (i : Instruction)
    (hn : '\n' ∉ line) (hrr : '\r' ∉ line)
    (h : parseCommandLine line = .ok i) : wfInstruction i = true := by
  unfold parseCommandLine at h
  rcases hname : line.takeWhile (fun c => !(isPySpace c)) with _ | ⟨n1, nt⟩
  · rw [hname] at h
    rcases hrest : line.dropWhile (fun c => !(isPySpace c)) with _ | ⟨c, cs⟩ <;>
      rw [hrest] at h <;> cases h
  · rw [hname] at h
    have hnamemem : ∀ x ∈ n1 :: nt, (!(isPySpace x) && x != '\n' && x != '\r') = true := by
      intro x hx
      have hx2 : x ∈ line.takeWhile (fun c => !(isPySpace c)) := hname ▸ hx
      have hp := List.mem_takeWhile_imp hx2
      have hxline : x ∈ line := (List.takeWhile_sublist _).subset hx2
      simp only [Bool.and_eq_true, hp, bne_iff_ne]
      exact ⟨⟨trivial, fun hq => hn (hq ▸ hxline)⟩, fun hq => hrr (hq ▸ hxline)⟩
    rcases hrest : line.dropWhile (fun c => !(isPySpace c)) with _ | ⟨c, cs⟩
    · rw [hrest] at h
      replace h : (Except.ok ((n1 :: nt).asString, "") : Except RTErr Instruction) = .ok i := h
      cases h
      simp only [wfInstruction, Bool.and_eq_true, List.all_eq_true, data_asString]
      refine ⟨⟨⟨by simp, fun x hx => by simpa using hnamemem x hx⟩, by decide⟩, by decide⟩
    · rw [hrest] at h
      replace h : (if c = ' ' then
          match (c :: cs).dropWhile (fun c2 => c2 = ' ') with
          | [] => (Except.error RTErr.parseError : Except RTErr Instruction)
          | a :: as2 => Except.ok ((n1 :: nt).asString, (a :: as2).asString)
        else Except.error RTErr.parseError) = Except.ok i := h
      by_cases hsp : c = ' '
      · rw [if_pos hsp] at h
        rcases hargs : (c :: cs).dropWhile (fun c2 => c2 = ' ') with _ | ⟨a, as2⟩
        · rw [hargs] at h
          cases h
        · rw [hargs] at h
          replace h : (Except.ok ((n1 :: nt).asString, (a :: as2).asString) :
              Except RTErr Instruction) = .ok i := h
          cases h
          have hargssub : ∀ x ∈ a :: as2, x ∈ line := by
            intro x hx
            have h2 : x ∈ (c :: cs).dropWhile (fun c2 => c2 = ' ') := hargs ▸ hx
            have h3 : x ∈ c :: cs := (List.dropWhile_sublist _).subset h2
            have h4 : x ∈ line.dropWhile (fun c => !(isPySpace c)) := hrest ▸ h3
            exact (List.dropWhile_sublist _).subset h4
          have hheadA : ¬(a = ' ') := by
            have hdw := List.head?_dropWhile_not (fun c2 => decide (c2 = ' ')) (c :: cs)
            rw [hargs] at hdw
            simp only [List.head?_cons, decide_eq_false_iff_not] at hdw
            exact hdw
          simp only [wfInstruction, Bool.and_eq_true, List.all_eq_true, data_asString]
          refine ⟨⟨⟨by simp, fun x hx => by simpa using hnamemem x hx⟩, ?_⟩, ?_⟩
          · intro x hx
            have hxline := hargssub x hx
            simp only [Bool.and_eq_true, bne_iff_ne]
            exact ⟨fun hq => hn (hq ▸ hxline), fun hq => hrr (hq ▸ hxline)⟩
          · simp only [List.head?_cons, bne_iff_ne, ne_eq, Option.some.injEq]
            exact hheadA
      · rw [if_neg hsp] at h
        cases h

theorem parseLines_wf : ∀ (ls : List (List Char)) (l : List Instruction),
    (∀ li ∈ ls, '\n' ∉ li ∧ '\r' ∉ li) →
    parseLines ls = .ok l → ∀ i ∈ l, wfInstruction i = true
  | [], l, _, h => by
    replace h : (Except.ok ([] : List Instruction) : Except RTErr (List Instruction)) = .ok l := h
    cases h
    simp
  | li :: ls, l, hli, h => by
    simp only [parseLines] at h
    cases hrec : parseLines ls with
    | error e =>
      rw [hrec, exceptBind_error] at h
      cases h
    | ok rest =>
      rw [hrec, exceptBind_ok] at h
      have ihrest := parseLines_wf ls rest (fun x hx => hli x (List.mem_cons_of_mem li hx)) hrec
      by_cases hemp : li.isEmpty
      · rw [if_pos hemp, exceptPure] at h
        cases h
        exact ihrest
      · rw [if_neg hemp] at h
        cases hcmd : parseCommandLine li with
        | error e =>
          rw [hcmd, exceptBind_error] at h
          cases h
        | ok i0 =>
          rw [hcmd, exceptBind_ok, exceptPure] at h
          cases h
          intro i hi
          rcases List.mem_cons.mp hi with h1 | h1
          · subst h1
            exact parseCommandLine_wf li i
              (hli li (List.mem_cons_self li ls)).1
              (hli li (List.mem_cons_self li ls)).2 hcmd
          · exact ihrest i h1

theorem parse_logos_wf (text : String) (l : List Instruction)
    (h : parse_logos text = .ok l) : ∀ i ∈ l, wfInstruction i = true := by
  unfold parse_logos at h
  by_cases hemp : text = ""
  · rw [if_pos hemp] at h
    cases h
    simp
  · rw [if_neg hemp] at h
    unfold splitLines at h
    by_cases hcr : crOk text.data
    · rw [if_pos hcr, exceptBind_ok] at h
      refine parseLines_wf _ l ?_ h
      intro li hli
      rcases List.mem_map.mp hli with ⟨l0, hl0, hstrip⟩
      constructor
      · intro hmem
        exact splitNl_no_nl text.data l0 hl0 (stripTrailCr_subset l0 (hstrip ▸ hmem))
      · intro hmem
        exact splitNl_strip_no_cr text.data hcr l0 hl0 (hstrip ▸ hmem)
    · rw [if_neg hcr, exceptBind_error] at h
      cases h

theorem wf_unpack (i : Instruction) (h : wfInstruction i = true) :
    i.1.data ≠ [] ∧
    (∀ c ∈ i.1.data, isPySpace c = false ∧ c ≠ '\n' ∧ c ≠ '\r') ∧
    (∀ c ∈ i.2.data, c ≠ '\n' ∧ c ≠ '\r') ∧
    i.2.data.head? ≠ some ' ' := by
  simp only [wfInstruction, Bool.and_eq_true, List.all_eq_true] at h
  obtain ⟨⟨⟨h1, h2⟩, h3⟩, h4⟩ := h
  refine ⟨?_, ?_, ?_, ?_⟩
  · intro hq
    rw [hq] at h1
    simp at h1
  · intro c hc
    have h5 := h2 c hc
    simp only [Bool.and_eq_true, Bool.not_eq_eq_eq_not, Bool.not_true, bne_iff_ne] at h5
    exact ⟨h5.1.1, h5.1.2, h5.2⟩
  · intro c hc
    have h5 := h3 c hc
    simp only [Bool.and_eq_true, bne_iff_ne] at h5
    exact h5
  · intro hq
    rw [hq] at h4
    simp at h4

theorem serializeInstruction_data (i : Instruction) :
    (serializeInstruction i).data =
      if i.2 = "" then i.1.data else i.1.data ++ ' ' :: i.2.data := by
  unfold serializeInstruction
  split
  · rfl
  · have hs : (" " : String).data = [' '] := rfl
    simp [String.data_append, hs]

theorem serializeInstruction_facts (i : Instruction) (h : wfInstruction i = true) :
    (serializeInstruction i).data ≠ [] ∧
    '\n' ∉ (serializeInstruction i).data ∧ '\r' ∉ (serializeInstruction i).data := by
  obtain ⟨h1, h2, h3, h4⟩ := wf_unpack i h
  rw [serializeInstruction_data]
  split
  · exact ⟨h1, fun hm => (h2 _ hm).2.1 rfl, fun hm => (h2 _ hm).2.2 rfl⟩
  · refine ⟨by simp [h1], ?_, ?_⟩
    · intro hm
      rcases List.mem_append.mp hm with hm | hm
      · exact (h2 _ hm).2.1 rfl
      · rcases List.mem_cons.mp hm with hm | hm
        · exact absurd hm (by decide)
        · exact (h3 _ hm).1 rfl
    · intro hm
      rcases List.mem_append.mp hm with hm | hm
      · exact (h2 _ hm).2.2 rfl
      · rcases List.mem_cons.mp hm with hm | hm
        · exact absurd hm (by decide)
        · exact (h3 _ hm).2 rfl

theorem parseCommandLine_serialize (i : Instruction) (h : wfInstruction i = true) :
    parseCommandLine (serializeInstruction i).data = .ok i := by
  obtain ⟨h1, h2, h3, h4⟩ := wf_unpack i h
  have hallp : ∀ x ∈ i.1.data, (fun c => !(isPySpace c)) x = true := by
    intro x hx
    simp [(h2 x hx).1]
  rw [serializeInstruction_data]
  by_cases hargs : i.2 = ""
  · rw [if_pos hargs]
    unfold parseCommandLine
    rw [List.takeWhile_eq_self_iff.mpr hallp, List.dropWhile_eq_nil_iff.mpr hallp]
    rcases hdata : i.1.data with _ | ⟨n1, nt⟩
    · exact absurd hdata h1
    · show (Except.ok ((n1 :: nt).asString, "") : Except RTErr Instruction) = .ok i
      rw [← hdata, asString_data, ← hargs]
  · rw [if_neg hargs]
    unfold parseCommandLine
    have htw : (i.1.data ++ ' ' :: i.2.data).takeWhile (fun c => !(isPySpace c)) = i.1.data := by
      rw [List.takeWhile_append, List.takeWhile_eq_self_iff.mpr hallp]
      simp [List.takeWhile_cons, isPySpace]
    have hdw : (i.1.data ++ ' ' :: i.2.data).dropWhile (fun c => !(isPySpace c))
        = ' ' :: i.2.data := by
      rw [List.dropWhile_append, List.dropWhile_eq_nil_iff.mpr hallp]
      simp [List.dropWhile_cons, isPySpace]
    rw [htw, hdw]
    rcases hdata : i.1.data with _ | ⟨n1, nt⟩
    · exact absurd hdata h1
    · show (if ' ' = ' ' then
          match (' ' :: i.2.data).dropWhile (fun c2 => c2 = ' ') with
          | [] => (Except.error RTErr.parseError : Except RTErr Instruction)
          | a :: as2 => Except.ok ((n1 :: nt).asString, (a :: as2).asString)
        else Except.error RTErr.parseError) = .ok i
      rw [if_pos rfl]
      have hdw2 : (' ' :: i.2.data).dropWhile (fun c2 => c2 = ' ') = i.2.data := by
        rw [List.dropWhile_cons]
        simp only [decide_eq_true_eq, if_true]
        rcases hargd : i.2.data with _ | ⟨a, as2⟩
        · simp
        · rw [List.dropWhile_cons]
          have ha : ¬(a = ' ') := by
            rw [hargd] at h4
            simp only [List.head?_cons, ne_eq, Option.some.injEq] at h4
            exact h4
          simp [ha]
      rw [hdw2]
      rcases hargd : i.2.data with _ | ⟨a, as2⟩
      · exfalso
        apply hargs
        have h5 := congrArg List.asString hargd
        rw [asString_data] at h5
        exact h5
      · show (Except.ok ((n1 :: nt).asString, (a :: as2).asString) :
            Except RTErr Instruction) = .ok i
        rw [← hdata, ← hargd, asString_data, asString_data]

theorem splitNl_single : ∀ l : List Char, '\n' ∉ l → splitNl l = [l]
  | [], _ => rfl
  | c :: rest, h => by
    have hc : ¬(c = '\n') := fun hq => h (hq ▸ List.mem_cons_self c rest)
    simp only [splitNl]
    rw [if_neg hc, splitNl_single rest (fun hq => h (List.mem_cons_of_mem c hq))]

theorem splitNl_append : ∀ (l t : List Char), '\n' ∉ l →
    splitNl (l ++ '\n' :: t) = l :: splitNl t
  | [], t, _ => by simp [splitNl]
  | c :: rest, t, h => by
    have hc : ¬(c = '\n') := fun hq => h (hq ▸ List.mem_cons_self c rest)
    have ih := splitNl_append rest t (fun hq => h (List.mem_cons_of_mem c hq))
    simp only [List.cons_append, splitNl, List.append_eq]
    rw [if_neg hc, ih]

theorem serializeProgram_data_cons (i j : Instruction) (js : List Instruction) :
    (serializeProgram (i :: j :: js)).data =
      (serializeInstruction i).data ++ '\n' :: (serializeProgram (j :: js)).data := by
  have hnl : ("\n" : String).data = ['\n'] := rfl
  simp [serializeProgram, String.data_append, hnl]

theorem splitNl_serializeProgram : ∀ l : List Instruction,
    (∀ i ∈ l, wfInstruction i = true) →
    l ≠ [] →
    splitNl (serializeProgram l).data = l.map (fun i => (serializeInstruction i).data)
  | [], _, hne => absurd rfl hne
  | [i], hwf, _ => by
    simp only [serializeProgram, List.map]
    exact splitNl_single _ (serializeInstruction_facts i (hwf i (by simp))).2.1
  | i :: j :: js, hwf, _ => by
    have ih := splitNl_serializeProgram (j :: js)
      (fun x hx => hwf x (List.mem_cons_of_mem i hx)) (by simp)
    rw [serializeProgram_data_cons,
      splitNl_append _ _ (serializeInstruction_facts i (hwf i (by simp))).2.1, ih]
    rfl

theorem serializeProgram_no_cr : ∀ l : List Instruction,
    (∀ i ∈ l, wfInstruction i = true) → '\r' ∉ (serializeProgram l).data
  | [], _ => by
    intro hm
    exact absurd hm (by decide)
  | [i], hwf => (serializeInstruction_facts i (hwf i (by simp))).2.2
  | i :: j :: js, hwf => by
    rw [serializeProgram_data_cons]
    intro hm
    rcases List.mem_append.mp hm with hm | hm
    · exact (serializeInstruction_facts i (hwf i (by simp))).2.2 hm
    · rcases List.mem_cons.mp hm with hm | hm
      · exact absurd hm (by decide)
      · exact serializeProgram_no_cr (j :: js)
          (fun x hx => hwf x (List.mem_cons_of_mem i hx)) hm

theorem parseLines_serialize : ∀ l : List Instruction,
    (∀ i ∈ l, wfInstruction i = true) →
    parseLines (l.map (fun i => (serializeInstruction i).data)) = .ok l
  | [], _ => rfl
  | i :: is, hwf => by
    have ih := parseLines_serialize is (fun x hx => hwf x (List.mem_cons_of_mem i hx))
    have hfacts := serializeInstruction_facts i (hwf i (by simp))
    have hne : ¬((serializeInstruction i).data.isEmpty = true) := by
      cases hd : (serializeInstruction i).data with
      | nil => exact absurd hd hfacts.1
      | cons a l2 => simp
    simp only [List.map, parseLines]
    rw [ih, exceptBind_ok, if_neg hne,
      parseCommandLine_serialize i (hwf i (by simp)), exceptBind_ok, exceptPure]

theorem serializeProgram_data_ne_nil (i : Instruction) (is : List Instruction)
    (hwf : wfInstruction i = true) : (serializeProgram (i :: is)).data ≠ [] := by
  cases is with
  | nil => exact (serializeInstruction_facts i hwf).1
  | cons j js =>
    rw [serializeProgram_data_cons]
    intro hq
    exact (serializeInstruction_facts i hwf).1 (List.append_eq_nil.mp hq).1

theorem parse_serialize : ∀ l : List Instruction,
    (∀ i ∈ l, wfInstruction i = true) →
    parse_logos (serializeProgram l) = .ok l
  | [], _ => rfl
  | i :: is, hwf => by
    have hnonempty := serializeProgram_data_ne_nil i is (hwf i (by simp))
    unfold parse_logos
    rw [if_neg (fun hq => hnonempty (congrArg String.data hq))]
    unfold splitLines
    rw [if_pos (crOk_of_no_cr _ (serializeProgram_no_cr (i :: is) hwf)), exceptBind_ok,
      splitNl_serializeProgram (i :: is) hwf (by simp)]
    have hmapstrip :
        (((i :: is).map (fun x => (serializeInstruction x).data)).map stripTrailCr)
          = (i :: is).map (fun x => (serializeInstruction x).data) := by
      rw [List.map_map]
      refine List.map_congr_left ?_
      intro x hx
      exact stripTrailCr_eq_of_no_cr _ (serializeInstruction_facts x (hwf x hx)).2.2
    rw [hmapstrip]
    exact parseLines_serialize (i :: is) hwf

/-- C9: parsing instruction text, re-serializing each instruction as name
plus a single space plus args (name alone when args is empty), one
instruction per line, and reparsing yields the same instruction sequence
as the first parse. -/
theorem C9_parse_serialize_roundtrip (text : String) (l : List Instruction)
    (h : parse_logos text = .ok l) :
    parse_logos (serializeProgram l) = .ok l :=
  parse_serialize l (parse_logos_wf text l h)

/-- Witness for C9: the two-instruction text foo bar / baz round-trips. -/
theorem C9_parse_serialize_roundtrip_witness :
    parse_logos (serializeProgram [("foo", "bar"), ("baz", "")]) =
      .ok [("foo", "bar"), ("baz", "")] :=
  C9_parse_serialize_roundtrip "foo bar\nbaz" [("foo", "bar"), ("baz", "")] rfl
